import Mathlib

/-!
Shallow embedding of the two LaTeX validators of this repository:
the structural validator (brace/bracket balance, environment matching,
heuristic warnings) and the render-based validator that wraps an external
typesetting engine.  Strings are handled as `List Char`; JS string methods
(`trim`, `includes`, regex tests) are embedded as explicit list scans.
-/

/-- Character constants, kept out of string literals. -/
def quoteCh : Char := Char.ofNat 39

def obc : Char := Char.ofNat 123

def cbc : Char := Char.ofNat 125

def obS : String := ⟨[obc]⟩

def cbS : String := ⟨[cbc]⟩

def sqS : String := ⟨[quoteCh]⟩

/-- Embedding of JavaScript `String.prototype.trim` on char lists. -/
def jsTrim (s : List Char) : List Char :=
  (((s.dropWhile Char.isWhitespace).reverse).dropWhile Char.isWhitespace).reverse

/-- Error message for an unmatched closing brace (source: checkBalancedBraces). -/
def braceUnmatchedMsg (pos : Nat) : String :=
  "Unmatched closing brace " ++ sqS ++ cbS ++ sqS ++ " at position " ++ toString pos

/-- Error message for leftover open braces (source: checkBalancedBraces). -/
def braceLeftMsg (count : Int) : String :=
  toString count ++ " unclosed brace(s) " ++ sqS ++ obS ++ sqS

/-- Error message for an unmatched closing bracket (source: checkBalancedBrackets). -/
def bracketUnmatchedMsg (pos : Nat) : String :=
  "Unmatched closing bracket " ++ sqS ++ "]" ++ sqS ++ " at position " ++ toString pos

/-- Error message for leftover open brackets (source: checkBalancedBrackets). -/
def bracketLeftMsg (count : Int) : String :=
  toString count ++ " unclosed bracket(s) " ++ sqS ++ "[" ++ sqS

/-- Loop of the source function `checkBalancedBraces`: left-to-right scan
carrying the previous character, the 0-based index and the signed counter.
On the first decrement below zero the loop breaks having pushed the
unmatched-closing-brace error (the post-loop leftover check is then
vacuous since the counter is negative). -/
def braceAux : List Char → Option Char → Nat → Int → List String
  | [], _, _, count => if count > 0 then [braceLeftMsg count] else []
  | ch :: rest, prev, i, count =>
    if ch = obc ∧ prev ≠ some '\\' then
      braceAux rest (some ch) (i + 1) (count + 1)
    else if ch = cbc ∧ prev ≠ some '\\' then
      (if count - 1 < 0 then [braceUnmatchedMsg (i + 1)]
       else braceAux rest (some ch) (i + 1) (count - 1))
    else braceAux rest (some ch) (i + 1) count

/-- Source function `checkBalancedBraces`. -/
def checkBalancedBraces (s : List Char) : List String :=
  braceAux s none 0 0

/-- Loop of the source function `checkBalancedBrackets`, the textual twin of
`braceAux` over square brackets. -/
def bracketAux : List Char → Option Char → Nat → Int → List String
  | [], _, _, count => if count > 0 then [bracketLeftMsg count] else []
  | ch :: rest, prev, i, count =>
    if ch = '[' ∧ prev ≠ some '\\' then
      bracketAux rest (some ch) (i + 1) (count + 1)
    else if ch = ']' ∧ prev ≠ some '\\' then
      (if count - 1 < 0 then [bracketUnmatchedMsg (i + 1)]
       else bracketAux rest (some ch) (i + 1) (count - 1))
    else bracketAux rest (some ch) (i + 1) count

/-- Source function `checkBalancedBrackets`. -/
def checkBalancedBrackets (s : List Char) : List String :=
  bracketAux s none 0 0

/-- Specification-side view of the scan: each character paired with its
0-based index and its predecessor (none for the first character). -/
def taggedFrom : Nat → Option Char → List Char → List (Nat × Option Char × Char)
  | _, _, [] => []
  | i, prev, c :: rest => (i, prev, c) :: taggedFrom (i + 1) (some c) rest

/-- Delimiter occurrences that count toward the balance: an open or close
delimiter whose immediately preceding character is not the escape marker. -/
def relevantDelims (o c : Char) (s : List Char) : List (Nat × Option Char × Char) :=
  (taggedFrom 0 none s).filter (fun t => (t.2.2 = o ∨ t.2.2 = c) ∧ t.2.1 ≠ some '\\')

/-- Specification-side replay of the claim: a signed counter over the counted
delimiters; the first decrement below zero reports the unmatched closing
delimiter at its 1-indexed position and stops; a positive leftover counter at
the end reports the single leftover-count error. -/
def replayDelims (o : Char) (umsg : Nat → String) (lmsg : Int → String) :
    List (Nat × Option Char × Char) → Int → List String
  | [], count => if count > 0 then [lmsg count] else []
  | (i, _, ch) :: rest, count =>
    if ch = o then replayDelims o umsg lmsg rest (count + 1)
    else if count - 1 < 0 then [umsg (i + 1)]
    else replayDelims o umsg lmsg rest (count - 1)

/-- The balance-check algorithm exactly as the claims describe it. -/
def delimSpec (o c : Char) (umsg : Nat → String) (lmsg : Int → String)
    (s : List Char) : List String :=
  replayDelims o umsg lmsg (relevantDelims o c s) 0

/-- Embedding of JavaScript `String.prototype.includes`: substring search. -/
def jsIncludes (needle : List Char) : List Char → Bool
  | [] => needle.isEmpty
  | c :: rest => needle.isPrefixOf (c :: rest) || jsIncludes needle rest

/-- Embedding of the incomplete-trailing-command test, the regex
`\\[a-zA-Z]+\s*$` applied to the trimmed text: the text ends in whitespace,
preceded by one or more ASCII letters, preceded by the escape marker. -/
def incompleteTrailing (t : List Char) : Bool :=
  let r := (t.reverse).dropWhile Char.isWhitespace
  let letters := r.takeWhile Char.isAlpha
  !letters.isEmpty && ((r.drop letters.length).head? = some '\\')

/-- Literal `\begin{` the environment regex starts with. -/
def tagBegin : List Char := "\\begin".data ++ [obc]

/-- Literal `\end{` the closing-environment regex starts with. -/
def tagEnd : List Char := "\\end".data ++ [obc]

/-- One attempted regex match of `tag` followed by `[^}]+\}` at the head of
`s`: returns the captured name and the remainder after the match. -/
def tryMatchEnv (tag : List Char) (s : List Char) : Option (List Char × List Char) :=
  if tag.isPrefixOf s then
    let after := s.drop tag.length
    let name := after.takeWhile (fun c => c ≠ cbc)
    let rem := after.drop name.length
    if name.isEmpty then none
    else if rem.head? = some cbc then some (name, rem.tail) else none
  else none

/-- Embedding of `matchAll`: scan left to right; on a match record the
0-based match position and captured name and resume after the match,
otherwise advance one character.  The fuel argument (instantiated with the
string length, an upper bound on the number of steps since every step
consumes at least one character) makes the recursion structural. -/
def scanEnvsF (tag : List Char) : Nat → List Char → Nat → List (Nat × List Char)
  | 0, _, _ => []
  | _, [], _ => []
  | fuel + 1, c :: rest, pos =>
    match tryMatchEnv tag (c :: rest) with
    | some (name, rest2) =>
      (pos, name) :: scanEnvsF tag fuel rest2 (pos + tag.length + name.length + 1)
    | none => scanEnvsF tag fuel rest (pos + 1)

/-- All matches of the given environment regex with their positions. -/
def scanEnvs (tag : List Char) (s : List Char) : List (Nat × List Char) :=
  scanEnvsF tag s.length s 0

/-- Environment event: a `\begin{name}` or an `\end{name}` occurrence at a
source position. -/
inductive EnvEv where
  | beg : Nat → String → EnvEv
  | fin : Nat → String → EnvEv
deriving DecidableEq

/-- Position of an environment event. -/
def evPos : EnvEv → Nat
  | .beg p _ => p
  | .fin p _ => p

/-- Begin and end occurrences merged and sorted by position ascending
(source: the construction of `allEnvs` in `checkEnvironments`; a stable
sort, and positions are pairwise distinct anyway). -/
def envEvents (s : List Char) : List EnvEv :=
  List.insertionSort (fun a b => evPos a ≤ evPos b)
    (((scanEnvs tagBegin s).map (fun p => EnvEv.beg p.1 ⟨p.2⟩)) ++
      ((scanEnvs tagEnd s).map (fun p => EnvEv.fin p.1 ⟨p.2⟩)))

/-- Error message for `\end{name}` with empty stack (source text). -/
def noMatchMsg (n : String) : String :=
  "\\end" ++ obS ++ n ++ cbS ++ " has no matching \\begin" ++ obS ++ n ++ cbS

/-- Error message for an environment name mismatch (source text). -/
def mismatchMsg (a b : String) : String :=
  "Environment mismatch: \\begin" ++ obS ++ a ++ cbS ++ " closed with \\end" ++ obS ++ b ++ cbS

/-- Error message for an environment left on the stack (source text). -/
def unclosedEnvMsg (n : String) : String :=
  "Unclosed environment: \\begin" ++ obS ++ n ++ cbS ++ " has no matching \\end" ++ obS ++ n ++ cbS

/-- One step of the source loop over `allEnvs`: the state is the error list
so far and the environment stack (top of the stack at the head). -/
def envStep (st : List String × List String) (e : EnvEv) : List String × List String :=
  match e with
  | .beg _ n => (st.1, n :: st.2)
  | .fin _ n =>
    match st.2 with
    | [] => (st.1 ++ [noMatchMsg n], [])
    | top :: rest => if top ≠ n then (st.1 ++ [mismatchMsg top n], rest) else (st.1, rest)

/-- Source function `checkEnvironments`: replay the merged event list, then
report every environment still on the stack, bottom of the stack first
(the source iterates the array from index 0, and the array bottom is the
reverse of the head-is-top list used here). -/
def checkEnvironments (s : List Char) : List String :=
  let final := (envEvents s).foldl envStep ([], [])
  final.1 ++ (final.2.reverse.map unclosedEnvMsg)

/-- Warning text of each denylisted command (source: `katexOnlyCommands`). -/
def htmlMsg : String := "HTML-specific command, not supported in PDF generation"

/-- The fixed denylist of KaTeX-only commands (source: `katexOnlyCommands`). -/
def katexOnlyCommands : List (String × String) :=
  [("\\htmlClass", htmlMsg), ("\\htmlId", htmlMsg), ("\\htmlStyle", htmlMsg), ("\\htmlData", htmlMsg)]

/-- Source function `checkUnsupportedCommands`: one warning per denylisted
command contained in the text as a plain substring. -/
def checkUnsupportedCommands (s : List Char) : List String :=
  katexOnlyCommands.filterMap
    (fun p => if jsIncludes p.1.data s then some (p.1 ++ ": " ++ p.2) else none)

/-- Embedding of the test of the regex `(?<!\\)\$(?![^$]*\$)`: some `$` whose
immediately preceding character is not a backslash and with no further `$`
anywhere after it. -/
def dollarAux : Option Char → List Char → Bool
  | _, [] => false
  | prev, c :: rest =>
    (c = '$' && prev ≠ some '\\' && rest.all (fun d => d ≠ '$')) || dollarAux (some c) rest

/-- Warning text for the orphaned-dollar heuristic (source text). -/
def dollarMsg : String := "Found unescaped $ sign. Use \\$ in text or wrap in $ $ for math mode"

/-- Warning text for the ampersand heuristic (source text). -/
def ampMsg : String := "Found & character. Use \\& to display ampersand in text"

/-- Source function `checkUnescapedSpecialChars`. -/
def checkUnescapedSpecialChars (s : List Char) : List String :=
  (if dollarAux none s then [dollarMsg] else []) ++
    (if jsIncludes ("&".data) s && !jsIncludes ("\\begin\x7btabular\x7d".data) s
     then [ampMsg] else [])

/-- Report shape shared by the two validators. -/
structure ValidationResult where
  isValid : Bool
  errors : List String
  warnings : List String
deriving DecidableEq

/-- Error text for empty input under the structural policy (source text). -/
def emptyMsg : String := "LaTeX code is empty"

/-- Warning text for an incomplete trailing command (source text). -/
def incompleteMsg : String := "LaTeX command appears incomplete at end"

/-- Core of the structural `validateLaTeX` over char lists: the empty-input
check, then checks 1-6 in source order, errors and warnings accumulated in
check order and validity decided by the error count. -/
def validateCore (s : List Char) : ValidationResult :=
  if s = [] ∨ (jsTrim s).length = 0 then ⟨false, [emptyMsg], []⟩
  else
    let braceErrors := checkBalancedBraces s
    let bracketErrors := checkBalancedBrackets s
    let incompleteWarnings := if incompleteTrailing (jsTrim s) then [incompleteMsg] else []
    let environmentErrors := checkEnvironments s
    let unsupportedWarnings := checkUnsupportedCommands s
    let specialWarnings := checkUnescapedSpecialChars s
    let errors := braceErrors ++ bracketErrors ++ environmentErrors
    let warnings := incompleteWarnings ++ unsupportedWarnings ++ specialWarnings
    ⟨errors.length == 0, errors, warnings⟩

/-- The structural validator (source file: the regex/counter validation
utilities, function `validateLaTeX`). -/
def validateLaTeX (s : String) : ValidationResult :=
  validateCore s.data

/-- Outcome of the external engine call `KaTeX.renderToString`: either a
normal return or a raised exception carrying an optional message. -/
inductive RenderOutcome where
  | ok : RenderOutcome
  | raised : Option String → RenderOutcome
deriving DecidableEq

/-- The fixed diagnostic introduction stripped by the render-based validator. -/
def enginePfx : List Char := "KaTeX parse error: ".data

/-- First cleanup replace: drop the anchored engine introduction if present. -/
def dropEnginePfx (s : List Char) : List Char :=
  if enginePfx.isPrefixOf s then s.drop enginePfx.length else s

/-- Length of a match of the regex `at position \d+: ` at the head of `s`. -/
def posSegLen (s : List Char) : Option Nat :=
  if ("at position ".data).isPrefixOf s then
    let after := s.drop 12
    let digits := after.takeWhile Char.isDigit
    if !digits.isEmpty && (": ".data).isPrefixOf (after.drop digits.length)
    then some (12 + digits.length + 2) else none
  else none

/-- Second cleanup replace: remove the leftmost `at position \d+: ` segment. -/
def removePosSeg : List Char → List Char
  | [] => []
  | c :: rest =>
    match posSegLen (c :: rest) with
    | some k => (c :: rest).drop k
    | none => c :: removePosSeg rest

/-- Normalization of the engine diagnostic (source: the `catch` block):
`error.message || fallback`, strip the fixed introduction, remove the
positional segment, trim. -/
def cleanMsg (m : Option String) : String :=
  let raw : String :=
    match m with
    | none => "Invalid LaTeX syntax"
    | some t => if t = "" then "Invalid LaTeX syntax" else t
  ⟨jsTrim (removePosSeg (dropEnginePfx raw.data))⟩

/-- The render-based validator (source file: the KaTeX-backed validation
utilities, function `validateLaTeX`), with the engine call abstracted as a
function-valued parameter; a raised engine exception is consumed and turned
into the single cleaned error string. -/
def renderValidateLaTeX (engine : String → RenderOutcome) (latexCode : String) :
    ValidationResult :=
  if latexCode.data = [] ∨ (jsTrim latexCode.data).length = 0 then ⟨true, [], []⟩
  else
    match engine latexCode with
    | .ok => ⟨true, [], []⟩
    | .raised m => ⟨false, [cleanMsg m], []⟩

/-- Environment replay exactly as the claim words it: begin pushes its name;
end pops the top, reporting when the stack is empty or the popped name
differs (case-sensitively); after replay every name still on the stack is
reported as unclosed. -/
def replaySpec : List EnvEv → List String → List String
  | [], stack => stack.reverse.map unclosedEnvMsg
  | EnvEv.beg _ n :: rest, stack => replaySpec rest (n :: stack)
  | EnvEv.fin _ n :: rest, [] => noMatchMsg n :: replaySpec rest []
  | EnvEv.fin _ n :: rest, top :: stack =>
    if top = n then replaySpec rest stack else mismatchMsg top n :: replaySpec rest stack

/-- Decomposed shape of the structural validator on non-empty input. -/
def structuralReport (s : List Char) : ValidationResult :=
  ⟨(checkBalancedBraces s ++ checkBalancedBrackets s ++ checkEnvironments s).length == 0,
    checkBalancedBraces s ++ checkBalancedBrackets s ++ checkEnvironments s,
    (if incompleteTrailing (jsTrim s) then [incompleteMsg] else []) ++
      checkUnsupportedCommands s ++ checkUnescapedSpecialChars s⟩
theorem braceAux_eq_replay (l : List Char) : ∀ (prev : Option Char) (i : Nat) (count : Int),
    braceAux l prev i count =
      replayDelims obc braceUnmatchedMsg braceLeftMsg
        ((taggedFrom i prev l).filter
          (fun t => (t.2.2 = obc ∨ t.2.2 = cbc) ∧ t.2.1 ≠ some '\\')) count := by
  induction l with
  | nil => intro prev i count; simp [braceAux, taggedFrom, replayDelims]
  | cons ch rest ih =>
    intro prev i count
    by_cases ho : ch = obc ∧ prev ≠ some '\\'
    · simp [braceAux, taggedFrom, ho, replayDelims, ho.1, ih]
    · by_cases hc : ch = cbc ∧ prev ≠ some '\\'
      · have hne : ¬ ch = obc := by
          rintro rfl
          exact absurd hc.1 (by decide)
        have hco : ¬ cbc = obc := by decide
        by_cases hlt : count - 1 < 0
        · simp [braceAux, taggedFrom, ho, hc, replayDelims, hne, hco, hlt]
        · simp [braceAux, taggedFrom, ho, hc, replayDelims, hne, hco, hlt, ih]
      · have hfilter : ¬ ((ch = obc ∨ ch = cbc) ∧ prev ≠ some '\\') := by
          rintro ⟨h1 | h1, h2⟩
          · exact ho ⟨h1, h2⟩
          · exact hc ⟨h1, h2⟩
        simp [braceAux, taggedFrom, ho, hc, hfilter, ih]

theorem bracketAux_eq_replay (l : List Char) : ∀ (prev : Option Char) (i : Nat) (count : Int),
    bracketAux l prev i count =
      replayDelims '[' bracketUnmatchedMsg bracketLeftMsg
        ((taggedFrom i prev l).filter
          (fun t => (t.2.2 = '[' ∨ t.2.2 = ']') ∧ t.2.1 ≠ some '\\')) count := by
  induction l with
  | nil => intro prev i count; simp [bracketAux, taggedFrom, replayDelims]
  | cons ch rest ih =>
    intro prev i count
    by_cases ho : ch = '[' ∧ prev ≠ some '\\'
    · simp [bracketAux, taggedFrom, ho, replayDelims, ho.1, ih]
    · by_cases hc : ch = ']' ∧ prev ≠ some '\\'
      · have hne : ¬ ch = '[' := by
          rintro rfl
          exact absurd hc.1 (by decide)
        have hco : ¬ ']' = '[' := by decide
        by_cases hlt : count - 1 < 0
        · simp [bracketAux, taggedFrom, ho, hc, replayDelims, hne, hco, hlt]
        · simp [bracketAux, taggedFrom, ho, hc, replayDelims, hne, hco, hlt, ih]
      · have hfilter : ¬ ((ch = '[' ∨ ch = ']') ∧ prev ≠ some '\\') := by
          rintro ⟨h1 | h1, h2⟩
          · exact ho ⟨h1, h2⟩
          · exact hc ⟨h1, h2⟩
        simp [bracketAux, taggedFrom, ho, hc, hfilter, ih]


theorem jsTrim_nil_of_all_ws {l : List Char} (h : l.all Char.isWhitespace = true) :
    jsTrim l = [] := by
  have h1 : l.dropWhile Char.isWhitespace = [] :=
    List.dropWhile_eq_nil_iff.mpr (fun x hx => List.all_eq_true.mp h x hx)
  simp [jsTrim, h1]

theorem mem_dropWhile_of_not {l : List Char} {c : Char} (hm : c ∈ l)
    (hw : c.isWhitespace = false) : c ∈ l.dropWhile Char.isWhitespace := by
  have hsplit := List.takeWhile_append_dropWhile Char.isWhitespace l
  rcases List.mem_append.mp (by rw [hsplit]; exact hm) with h | h
  · exact absurd (List.mem_takeWhile_imp h) (by simp [hw])
  · exact h

theorem jsTrim_ne_nil_of_mem {l : List Char} {c : Char} (hm : c ∈ l)
    (hw : c.isWhitespace = false) : jsTrim l ≠ [] := by
  intro hnil
  have h1 : ((l.dropWhile Char.isWhitespace).reverse.dropWhile Char.isWhitespace) = [] := by
    have := congrArg List.reverse hnil
    simpa [jsTrim] using this
  have h2 := List.dropWhile_eq_nil_iff.mp h1
  have h3 : c ∈ (l.dropWhile Char.isWhitespace).reverse :=
    List.mem_reverse.mpr (mem_dropWhile_of_not hm hw)
  have := h2 c h3
  simp [hw] at this

theorem validateCore_decomp (s : List Char) (h : jsTrim s ≠ []) :
    validateCore s = structuralReport s := by
  have hd : ¬ (s = [] ∨ (jsTrim s).length = 0) := by
    rintro (h1 | h2)
    · exact h (by rw [h1]; rfl)
    · exact h (List.length_eq_zero.mp h2)
  simp only [validateCore]
  rw [if_neg hd]
  rfl

theorem jsIncludes_head_mem {n l : List Char} {a : Char} (h : jsIncludes n l = true)
    (hh : n.head? = some a) : a ∈ l := by
  induction l with
  | nil =>
    cases n with
    | nil => simp at hh
    | cons b m => simp [jsIncludes] at h
  | cons c rest ih =>
    rcases (by simpa [jsIncludes] using h : n <+: c :: rest ∨ jsIncludes n rest = true) with h1 | h1
    · have hpre : n <+: c :: rest := h1
      cases n with
      | nil => simp at hh
      | cons b m =>
        obtain ⟨t, ht⟩ := hpre
        have hb : b = c := by
          have := congrArg List.head? ht
          simpa using this
        have : a = c := by rw [← hb]; simpa using hh.symm
        simp [this]
    · exact List.mem_cons_of_mem c (ih h1)

theorem jsIncludes_append_self (n t : List Char) : jsIncludes n (n ++ t) = true := by
  cases hnt : n ++ t with
  | nil =>
    have : n = [] := by
      cases n with
      | nil => rfl
      | cons a m => simp at hnt
    simp [jsIncludes, this]
  | cons c rest =>
    have hpre : n.isPrefixOf (n ++ t) = true :=
      List.isPrefixOf_iff_prefix.mpr (List.prefix_append n t)
    rw [hnt] at hpre
    simp [jsIncludes, hpre]

theorem envFold_eq_replay (evs : List EnvEv) : ∀ (errs : List String) (stack : List String),
    (evs.foldl envStep (errs, stack)).1 ++
        ((evs.foldl envStep (errs, stack)).2.reverse.map unclosedEnvMsg) =
      errs ++ replaySpec evs stack := by
  induction evs with
  | nil => intro errs stack; simp [replaySpec]
  | cons e rest ih =>
    intro errs stack
    cases e with
    | beg p n => simpa [envStep, replaySpec] using ih errs (n :: stack)
    | fin p n =>
      cases stack with
      | nil =>
        have := ih (errs ++ [noMatchMsg n]) []
        simpa [envStep, replaySpec] using this
      | cons top stk =>
        by_cases hne : top = n
        · have := ih errs stk
          simpa [envStep, replaySpec, hne] using this
        · have := ih (errs ++ [mismatchMsg top n]) stk
          simpa [envStep, replaySpec, hne] using this

theorem braceAux_len (l : List Char) : ∀ (prev : Option Char) (i : Nat) (count : Int),
    (braceAux l prev i count).length ≤ 1 := by
  induction l with
  | nil =>
    intro prev i count
    by_cases h : count > 0 <;> simp [braceAux, h]
  | cons ch rest ih =>
    intro prev i count
    simp only [braceAux]
    split_ifs <;> first | apply ih | simp

theorem bracketAux_len (l : List Char) : ∀ (prev : Option Char) (i : Nat) (count : Int),
    (bracketAux l prev i count).length ≤ 1 := by
  induction l with
  | nil =>
    intro prev i count
    by_cases h : count > 0 <;> simp [bracketAux, h]
  | cons ch rest ih =>
    intro prev i count
    simp only [bracketAux]
    split_ifs <;> first | apply ih | simp

theorem taggedFrom_append_ex (l : List Char) : ∀ (m : List Char) (i : Nat) (prev : Option Char),
    ∃ p2 : Option Char, taggedFrom i prev (l ++ m) =
      taggedFrom i prev l ++ taggedFrom (i + l.length) p2 m := by
  induction l with
  | nil => intro m i prev; exact ⟨prev, by simp [taggedFrom]⟩
  | cons c rest ih =>
    intro m i prev
    obtain ⟨p2, hp⟩ := ih m (i + 1) (some c)
    refine ⟨p2, ?_⟩
    have harith : i + (c :: rest).length = i + 1 + rest.length := by
      simp only [List.length_cons]
      omega
    simp only [List.cons_append, List.append_eq, taggedFrom, harith, hp]

theorem filter_escdouble_brace (i : Nat) (p : Option Char) :
    ((taggedFrom i p ['\\', '\\', obc]).filter
      (fun t => (t.2.2 = obc ∨ t.2.2 = cbc) ∧ t.2.1 ≠ some '\\')) = [] := by
  have hb1 : ¬ (('\\' : Char) = obc) := by decide
  have hb2 : ¬ (('\\' : Char) = cbc) := by decide
  simp [taggedFrom, hb1, hb2]

theorem filter_escsingle_brace (i : Nat) (p : Option Char) :
    ((taggedFrom i p ['\\', obc]).filter
      (fun t => (t.2.2 = obc ∨ t.2.2 = cbc) ∧ t.2.1 ≠ some '\\')) = [] := by
  have hb1 : ¬ (('\\' : Char) = obc) := by decide
  have hb2 : ¬ (('\\' : Char) = cbc) := by decide
  simp [taggedFrom, hb1, hb2]

theorem filter_escdouble_bracket (i : Nat) (p : Option Char) :
    ((taggedFrom i p ['\\', '\\', '[']).filter
      (fun t => (t.2.2 = '[' ∨ t.2.2 = ']') ∧ t.2.1 ≠ some '\\')) = [] := by
  have hb1 : ¬ (('\\' : Char) = '[') := by decide
  have hb2 : ¬ (('\\' : Char) = ']') := by decide
  simp [taggedFrom, hb1, hb2]

theorem cbb_append_escdouble (s : List Char) :
    checkBalancedBraces (s ++ ['\\', '\\', obc]) = checkBalancedBraces s := by
  rw [checkBalancedBraces, checkBalancedBraces, braceAux_eq_replay, braceAux_eq_replay]
  obtain ⟨p2, hp⟩ := taggedFrom_append_ex s (['\\', '\\', obc]) 0 none
  rw [hp, List.filter_append, filter_escdouble_brace, List.append_nil]

theorem cbb_append_escsingle (s : List Char) :
    checkBalancedBraces (s ++ ['\\', obc]) = checkBalancedBraces s := by
  rw [checkBalancedBraces, checkBalancedBraces, braceAux_eq_replay, braceAux_eq_replay]
  obtain ⟨p2, hp⟩ := taggedFrom_append_ex s (['\\', obc]) 0 none
  rw [hp, List.filter_append, filter_escsingle_brace, List.append_nil]

theorem cbk_append_escdouble (s : List Char) :
    checkBalancedBrackets (s ++ ['\\', '\\', '[']) = checkBalancedBrackets s := by
  rw [checkBalancedBrackets, checkBalancedBrackets, bracketAux_eq_replay, bracketAux_eq_replay]
  obtain ⟨p2, hp⟩ := taggedFrom_append_ex s (['\\', '\\', '[']) 0 none
  rw [hp, List.filter_append, filter_escdouble_bracket, List.append_nil]

/-- Claim C1: for every input the brace check is the described signed-counter
scan over unescaped braces — the first decrement below zero reports the
unmatched closing brace at its 1-indexed position and ends the sub-check,
otherwise a positive leftover count N yields the single N-unclosed-braces
error — the bracket check runs the identical independent algorithm over the
same text with its own counter, and validating the dangling-fraction example
yields exactly one unclosed-brace error with count 1 and an invalid report. -/
theorem claim1_balance_scan :
    (∀ s : List Char,
      checkBalancedBraces s = delimSpec obc cbc braceUnmatchedMsg braceLeftMsg s) ∧
    (∀ s : List Char,
      checkBalancedBrackets s = delimSpec '[' ']' bracketUnmatchedMsg bracketLeftMsg s) ∧
    validateLaTeX ("\\frac\x7b1\x7d\x7b2") = ⟨false, [braceLeftMsg 1], []⟩ := by
  refine ⟨fun s => ?_, fun s => ?_, by decide⟩
  · simpa [checkBalancedBraces, delimSpec, relevantDelims] using braceAux_eq_replay s none 0 0
  · simpa [checkBalancedBrackets, delimSpec, relevantDelims] using bracketAux_eq_replay s none 0 0

/-- Claim C2: the environment check extracts every begin and end occurrence,
merges them sorted by position, and replays them as the claimed stack
machine (push on begin; pop on end with an empty-stack error or a
case-sensitive mismatch error; leftover names reported as unclosed);
the matrix/table example reports exactly the mismatch naming both and the
unclosed-begin example reports only the unclosed-environment error. -/
theorem claim2_environment_stack :
    (∀ s : List Char, checkEnvironments s = replaySpec (envEvents s) []) ∧
    validateLaTeX ("\\begin\x7bmatrix\x7d1\\end\x7btable\x7d") =
      ⟨false, [mismatchMsg ("matrix") ("table")], []⟩ ∧
    validateLaTeX ("\\begin\x7bfoo\x7dx") = ⟨false, [unclosedEnvMsg ("foo")], []⟩ := by
  refine ⟨fun s => ?_, by decide, by decide⟩
  simpa [checkEnvironments] using envFold_eq_replay (envEvents s) [] []

/-- Claim C3: on empty or all-whitespace input the structural validator
reports invalid with exactly the one empty-input error and no warnings,
while the render-based validator reports valid with no diagnostics,
whatever the engine would do. -/
theorem claim3_empty_policy (engine : String → RenderOutcome) (s : String)
    (h : s.data.all Char.isWhitespace = true) :
    validateLaTeX s = ⟨false, [emptyMsg], []⟩ ∧
    renderValidateLaTeX engine s = ⟨true, [], []⟩ := by
  have ht : jsTrim s.data = [] := jsTrim_nil_of_all_ws h
  constructor
  · simp [validateLaTeX, validateCore, ht]
  · simp [renderValidateLaTeX, ht]

/-- Witness for C3 at the three-space input with a constant engine. -/
theorem claim3_empty_policy_witness :
    (("   ").data.all Char.isWhitespace = true) ∧
    (validateLaTeX ("   ") = ⟨false, [emptyMsg], []⟩ ∧
      renderValidateLaTeX (fun _ => RenderOutcome.ok) ("   ") = ⟨true, [], []⟩) :=
  ⟨by decide, claim3_empty_policy (fun _ => RenderOutcome.ok) ("   ") (by decide)⟩

/-- Claim C4: for every input and both validator strategies the report
satisfies isValid = (errors is empty); the warnings list never feeds into
the validity flag. -/
theorem claim4_isValid_iff_no_errors (engine : String → RenderOutcome) (s : String) :
    ((validateLaTeX s).isValid = true ↔ (validateLaTeX s).errors = []) ∧
    ((renderValidateLaTeX engine s).isValid = true ↔ (renderValidateLaTeX engine s).errors = []) := by
  constructor
  · by_cases h : jsTrim s.data = []
    · simp [validateLaTeX, validateCore, h]
    · rw [validateLaTeX, validateCore_decomp s.data h]
      simp [structuralReport, List.length_eq_zero]
  · rw [renderValidateLaTeX]
    by_cases h : s.data = [] ∨ (jsTrim s.data).length = 0
    · rw [if_pos h]
      simp
    · rw [if_neg h]
      cases engine s <;> simp

/-- Claim C5: the render-based validator is a total function of the engine
outcome — empty input and a successful render give a valid empty report,
and a raised engine diagnostic is consumed and becomes the single error
equal to the message with the fixed engine introduction and the positional
segment removed and the remainder trimmed, as the concrete cleaning
instances illustrate. -/
theorem claim5_render_catch :
    (∀ (engine : String → RenderOutcome) (s : String),
      renderValidateLaTeX engine s =
        (if (jsTrim s.data).length = 0 then ⟨true, [], []⟩
         else match engine s with
           | RenderOutcome.ok => ⟨true, [], []⟩
           | RenderOutcome.raised m => ⟨false, [cleanMsg m], []⟩)) ∧
    cleanMsg (some ("KaTeX parse error: Undefined control sequence at position 3: \\foo")) =
      "Undefined control sequence \\foo" ∧
    cleanMsg none = "Invalid LaTeX syntax" ∧
    cleanMsg (some ("   Extra junk   ")) = "Extra junk" := by
  refine ⟨fun engine s => ?_, by decide, by decide, by decide⟩
  rw [renderValidateLaTeX]
  by_cases h : (jsTrim s.data).length = 0
  · simp [h]
  · have hne : ¬ (s.data = [] ∨ (jsTrim s.data).length = 0) := by
      rintro (h1 | h2)
      · exact h (by rw [h1]; rfl)
      · exact h h2
    rw [if_neg hne, if_neg h]

/-- Counterexample to claim C6: in the source a brace counts only when the
single immediately preceding character is not a backslash, so the brace in
backslash-backslash-brace is skipped and the scan reports nothing, not the
one-unclosed-brace error the claim predicts. -/
theorem claim6_counterexample :
    checkBalancedBraces (("\\\\\x7b").data) = [] ∧
    checkBalancedBraces (("\\\\\x7b").data) ≠ [braceLeftMsg 1] := by
  constructor
  · decide
  · decide

/-- Claim C6 as amended: a delimiter is excluded from the count exactly when
the immediately preceding character is an escape marker, even when that
marker is itself escaped — appending backslash-backslash-delimiter (or
backslash-delimiter) to any text leaves the check's result unchanged, while
an unescaped brace does count. -/
theorem claim6_escape_amended :
    (∀ s : List Char, checkBalancedBraces (s ++ ['\\', '\\', obc]) = checkBalancedBraces s) ∧
    (∀ s : List Char, checkBalancedBraces (s ++ ['\\', obc]) = checkBalancedBraces s) ∧
    (∀ s : List Char, checkBalancedBrackets (s ++ ['\\', '\\', '[']) = checkBalancedBrackets s) ∧
    checkBalancedBraces (("x\x7b").data) = [braceLeftMsg 1] :=
  ⟨cbb_append_escdouble, cbb_append_escsingle, cbk_append_escdouble, by decide⟩

/-- Claim C7 evaluated at the failing input (code bug): the dollar-sign
regex also fires on the closing dollar of a properly paired math span, so
validating the paired span emits the unescaped-dollar warning exactly like
the orphaned dollar does, although the code's own comment and the spec say
a paired span must not warn. -/
theorem claim7_dollar_bug_eval :
    (validateLaTeX ("$x$")).warnings = [dollarMsg] ∧
    (validateLaTeX ("a$b")).warnings = [dollarMsg] := by
  constructor
  · decide
  · decide

/-- Claim C8: on non-empty input the structural report lists brace errors,
then bracket errors, then environment errors, and warnings list the
incomplete-trailing-command warning, then denylist warnings, then
special-character warnings — check order, not text order, as the concrete
example with reversed text positions shows. -/
theorem claim8_check_order (s : String) (h : jsTrim s.data ≠ []) :
    (validateLaTeX s).errors =
      checkBalancedBraces s.data ++ checkBalancedBrackets s.data ++ checkEnvironments s.data ∧
    (validateLaTeX s).warnings =
      (if incompleteTrailing (jsTrim s.data) then [incompleteMsg] else []) ++
        checkUnsupportedCommands s.data ++ checkUnescapedSpecialChars s.data ∧
    validateLaTeX ("\\end\x7ba\x7d]\x7d") =
      ⟨false, [braceUnmatchedMsg 9, bracketUnmatchedMsg 8, noMatchMsg ("a")], []⟩ := by
  rw [validateLaTeX, validateCore_decomp s.data h]
  exact ⟨rfl, rfl, by decide⟩

/-- Witness for C8 at a one-character input. -/
theorem claim8_check_order_witness :
    (jsTrim (("x").data) ≠ []) ∧
    ((validateLaTeX ("x")).errors =
        checkBalancedBraces (("x").data) ++ checkBalancedBrackets (("x").data) ++
          checkEnvironments (("x").data) ∧
      (validateLaTeX ("x")).warnings =
        (if incompleteTrailing (jsTrim (("x").data)) then [incompleteMsg] else []) ++
          checkUnsupportedCommands (("x").data) ++ checkUnescapedSpecialChars (("x").data) ∧
      validateLaTeX ("\\end\x7ba\x7d]\x7d") =
        ⟨false, [braceUnmatchedMsg 9, bracketUnmatchedMsg 8, noMatchMsg ("a")], []⟩) :=
  ⟨by decide, claim8_check_order ("x") (by decide)⟩

/-- Claim C9: whenever a denylisted command occurs in the input as a plain
substring, the structural report's warnings contain the warning built from
that command (which mentions it), and such an occurrence alone leaves the
report valid. -/
theorem claim9_denylist (p : String × String) (hp : p ∈ katexOnlyCommands) (s : String)
    (hs : jsIncludes p.1.data s.data = true) :
    ((p.1 ++ ": " ++ p.2) ∈ (validateLaTeX s).warnings ∧
      jsIncludes p.1.data ((p.1 ++ ": " ++ p.2)).data = true) ∧
    (validateLaTeX ("\\htmlClass")).isValid = true := by
  refine ⟨⟨?_, ?_⟩, by decide⟩
  · have hhead : p.1.data.head? = some '\\' := by
      have hp2 := hp
      simp only [katexOnlyCommands, List.mem_cons, List.not_mem_nil, or_false] at hp2
      rcases hp2 with rfl | rfl | rfl | rfl <;> rfl
    have hbs : '\\' ∈ s.data := jsIncludes_head_mem hs hhead
    have htrim : jsTrim s.data ≠ [] := jsTrim_ne_nil_of_mem hbs (by decide)
    rw [validateLaTeX, validateCore_decomp s.data htrim]
    show _ ∈ (if incompleteTrailing (jsTrim s.data) then [incompleteMsg] else []) ++
      checkUnsupportedCommands s.data ++ checkUnescapedSpecialChars s.data
    refine List.mem_append.mpr (Or.inl (List.mem_append.mpr (Or.inr ?_)))
    refine List.mem_filterMap.mpr ⟨p, hp, ?_⟩
    rw [if_pos hs]
  · have hw : ((p.1 ++ ": " ++ p.2)).data = p.1.data ++ ((": ").data ++ p.2.data) := by
      rw [String.data_append, String.data_append, List.append_assoc]
    rw [hw]
    exact jsIncludes_append_self _ _

/-- Witness for C9 at the htmlClass command inside a concrete input. -/
theorem claim9_denylist_witness :
    ((("\\htmlClass", htmlMsg) ∈ katexOnlyCommands) ∧
      jsIncludes (("\\htmlClass", htmlMsg)).1.data (("x\\htmlClassy").data) = true) ∧
    ((("\\htmlClass", htmlMsg).1 ++ ": " ++ ("\\htmlClass", htmlMsg).2) ∈
        (validateLaTeX ("x\\htmlClassy")).warnings ∧
      jsIncludes (("\\htmlClass", htmlMsg)).1.data
        ((("\\htmlClass", htmlMsg).1 ++ ": " ++ ("\\htmlClass", htmlMsg).2)).data = true) ∧
    (validateLaTeX ("\\htmlClass")).isValid = true :=
  ⟨⟨by decide, by decide⟩,
    (claim9_denylist (("\\htmlClass", htmlMsg)) (by decide) ("x\\htmlClassy") (by decide)).1,
    (claim9_denylist (("\\htmlClass", htmlMsg)) (by decide) ("x\\htmlClassy") (by decide)).2⟩

/-- Claim C10: each balance check reports at most one error for its
delimiter kind — the early stop on the first unmatched closing delimiter
and the leftover-count report are mutually exclusive. -/
theorem claim10_at_most_one_balance_error (s : List Char) :
    (checkBalancedBraces s).length ≤ 1 ∧ (checkBalancedBrackets s).length ≤ 1 :=
  ⟨braceAux_len s none 0 0, bracketAux_len s none 0 0⟩
